import Mathlib

/-!
Shallow embedding of the SegmentedBuffer library
(src/include/segmented_buffer/segmented_buffer.hpp).

Tags (the C++ marker types `Tags...`) are modelled as natural numbers; a
buffer configuration is the ordered list of its declared tags.  `size_t`
arithmetic is modelled as natural-number arithmetic modulo `W = 2 ^ 64`.
Compile-time rejection (a failed `requires` clause / missing template
specialization) is modelled by `Option`: `none` stands for "this program
does not compile", so no buffer value exists for a malformed
configuration.
-/

namespace SegmentedBuffer

/-- Modulus of `size_t` arithmetic (64-bit unsigned). -/
def W : Nat := 2 ^ 64

/-- C++ `detail::contains_v<T, Ts...> = (std::is_same_v<T, Ts> || ...)`. -/
def contains_v (t : Nat) : List Nat → Bool
  | [] => false
  | u :: rest => (t == u) || contains_v t rest

/-- C++ `detail::index_of<T, Ts...>`: index of the first occurrence of `T` in the
pack.  The C++ template has no specialization for an empty pack, so an absent
tag is a compile error; `none` models that ill-formed instantiation. -/
def index_of (t : Nat) : List Nat → Option Nat
  | [] => none
  | u :: rest => if t = u then some 0 else (index_of t rest).map (· + 1)

/-- C++ `detail::unique_types_v<T, Rest...> = (!std::is_same_v<T, Rest> && ...) &&
unique_types_v<Rest...>`. -/
def unique_types_v : List Nat → Bool
  | [] => true
  | t :: rest => rest.all (fun u => !(t == u)) && unique_types_v rest

/-- C++ `detail::SegmentSize<Tag>`: a (tag, requested count) specification. -/
structure SegmentSize where
  tag : Nat
  n : Nat
deriving Repr, DecidableEq

/-- C++ `Segment<Tag>(n)`: builds one specification. -/
def Segment (tag : Nat) (n : Nat) : SegmentSize := ⟨tag, n⟩

/-- The constructor's fold `cur += count; ends_[i++] = cur`, starting from a
running total `cur`, in `size_t` (mod `W`) arithmetic. -/
def buildEndsFrom (cur : Nat) : List Nat → List Nat
  | [] => []
  | l :: rest =>
    let c := (cur + l) % W
    c :: buildEndsFrom c rest

/-- The boundary table `ends_` computed by `Buffer::Buffer` from the requested
lengths, in declaration order: running total starts at 0. -/
def buildEnds (lens : List Nat) : List Nat := buildEndsFrom 0 lens

/-- One `Buffer<Underlier, Tags...>` object.  `tags` is the declared tag list
(type-level in C++), `ends` the boundary table `ends_`, `data` the owned
allocation `data_` (`none` models a null `unique_ptr`, i.e. a moved-from
buffer), `allocSize` the element count passed to `make_unique` at
construction. -/
structure Buffer (α : Type) where
  tags : List Nat
  ends : List Nat
  data : Option (Nat → α)
  allocSize : Nat

/-- A `std::span`: start offset into the single allocation, plus length. -/
structure View where
  start : Nat
  len : Nat
deriving Repr, DecidableEq

/-- C++ `Buffer::Buffer(Specs...)` together with its `requires` clauses.  The
class-level constraint `UniqueTags<Tags...>` and the constructor-level
constraint `tuple<Specs...> == tuple<SegmentSize<Tags>...>` (same tags, same
count, same order) must hold for the instantiation to compile; otherwise no
buffer object can exist (`none`).  On success the boundary table is computed
and storage of `N == 0 ? 0 : ends_[N - 1]` value-initialized elements is
allocated. -/
def mkBuffer (α : Type) [Inhabited α] (tags : List Nat)
    (specs : List SegmentSize) : Option (Buffer α) :=
  if unique_types_v tags && (specs.map SegmentSize.tag == tags) then
    let ends := buildEnds (specs.map SegmentSize.n)
    some { tags := tags
           ends := ends
           data := some (fun _ => default)
           allocSize := if tags.length = 0 then 0 else ends.getD (tags.length - 1) 0 }
  else
    none

/-- C++ `Buffer::get<Tag>()`: guarded by `requires contains_v<Tag, Tags...>`
(compile error otherwise, modelled by `none`); resolves the tag to its
boundary-table position `i = index_of<Tag, Tags...>::value` at compile time,
then returns the span `{data_.get() + start, end - start}` with
`end = ends_[i]` and `start = (i == 0) ? 0 : ends_[i - 1]`.  The subtraction
`end - start` is `size_t` subtraction, i.e. `(end + W - start) % W`. -/
def Buffer.get {α : Type} (b : Buffer α) (t : Nat) : Option View :=
  if contains_v t b.tags then
    match index_of t b.tags with
    | some i =>
      let e := b.ends.getD i 0
      let s := if i = 0 then 0 else b.ends.getD (i - 1) 0
      some ⟨s, (e + W - s) % W⟩
    | none => none
  else
    none

/-- C++ `Buffer::total_size()`: `N == 0 ? 0 : ends_[N - 1]`. -/
def Buffer.total_size {α : Type} (b : Buffer α) : Nat :=
  if b.tags.length = 0 then 0 else b.ends.getD (b.tags.length - 1) 0

/-- Reading `view[k]`, i.e. `*(data_.get() + view.start + k)`: defined only
while the buffer owns its allocation. -/
def Buffer.readAt {α : Type} (b : Buffer α) (v : View) (k : Nat) : Option α :=
  b.data.map fun d => d (v.start + k)

/-- Writing `view[k] = x`, a store at absolute element index
`view.start + k` of the single allocation. -/
def Buffer.writeAt {α : Type} (b : Buffer α) (v : View) (k : Nat) (x : α) : Buffer α :=
  { b with data := b.data.map fun d => fun j => if j = v.start + k then x else d j }

/-- The defaulted move constructor / move assignment: the destination takes
the boundary table and the allocation; the source's `unique_ptr` becomes
null (it owns nothing).  Returns (destination, moved-from source). -/
def Buffer.move {α : Type} (b : Buffer α) : Buffer α × Buffer α :=
  (b, { b with data := none })

/-- A placeholder (moved-from style) buffer value, used only as the default of
`Option.getD` when naming the buffer produced by a concrete construction whose
success is proved separately. -/
def emptyBuffer : Buffer Int := ⟨[], [], none, 0⟩

/-- A buffer whose two requested lengths each fit in `size_t` but whose sum is
exactly 2^64, so the running total wraps to 0. -/
def wrapBuffer : Buffer Int :=
  (mkBuffer Int [0, 1] [Segment 0 (2 ^ 63), Segment 1 (2 ^ 63)]).getD emptyBuffer

/-- A buffer whose first segment requests 2^64 - 1 elements and whose second
requests 2, so the total wraps to 1. -/
def coverBuffer : Buffer Int :=
  (mkBuffer Int [0, 1] [Segment 0 (2 ^ 64 - 1), Segment 1 2]).getD emptyBuffer

/-- A buffer with lengths 2^63, 2^63, 5: the third segment's start wraps back
to offset 0, aliasing the first segment. -/
def aliasBuffer : Buffer Int :=
  (mkBuffer Int [0, 1, 2] [Segment 0 (2 ^ 63), Segment 1 (2 ^ 63), Segment 2 5]).getD emptyBuffer

/-- The view of `aliasBuffer`'s first segment. -/
def aliasV0 : View := (aliasBuffer.get 0).getD ⟨0, 0⟩

/-- The view of `aliasBuffer`'s third segment. -/
def aliasV2 : View := (aliasBuffer.get 2).getD ⟨0, 0⟩

/-! ### Helper lemmas -/

theorem W_pos : 0 < W := by
  norm_num [W]

theorem buildEndsFrom_length (c : Nat) (lens : List Nat) :
    (buildEndsFrom c lens).length = lens.length := by
  induction lens generalizing c with
  | nil => rfl
  | cons l rest ih => simp [buildEndsFrom, ih]

theorem buildEndsFrom_getD (lens : List Nat) :
    ∀ (c i : Nat), i < lens.length →
      (buildEndsFrom c lens).getD i 0 = (c + (lens.take (i + 1)).sum) % W := by
  induction lens with
  | nil =>
    intro c i h
    simp at h
  | cons l rest ih =>
    intro c i h
    cases i with
    | zero =>
      simp [buildEndsFrom]
    | succ i =>
      have h' : i < rest.length := by
        simpa using Nat.lt_of_succ_lt_succ h
      calc (buildEndsFrom c (l :: rest)).getD (i + 1) 0
          = (buildEndsFrom ((c + l) % W) rest).getD i 0 := by
            simp [buildEndsFrom]
        _ = ((c + l) % W + (rest.take (i + 1)).sum) % W := ih ((c + l) % W) i h'
        _ = (c + ((l :: rest).take (i + 2)).sum) % W := by
            rw [Nat.mod_add_mod]
            simp [List.take_succ_cons, Nat.add_assoc]

theorem buildEnds_length (lens : List Nat) : (buildEnds lens).length = lens.length :=
  buildEndsFrom_length 0 lens

theorem buildEnds_getD (lens : List Nat) (i : Nat) (h : i < lens.length) :
    (buildEnds lens).getD i 0 = (lens.take (i + 1)).sum % W := by
  simpa using buildEndsFrom_getD lens 0 i h

theorem buildEnds_getD_lt_W (lens : List Nat) (i : Nat) (h : i < lens.length) :
    (buildEnds lens).getD i 0 < W := by
  rw [buildEnds_getD lens i h]
  exact Nat.mod_lt _ W_pos

theorem sum_take_le (lens : List Nat) (m : Nat) : (lens.take m).sum ≤ lens.sum := by
  conv_rhs => rw [← List.take_append_drop m lens]
  rw [List.sum_append]
  exact Nat.le_add_right _ _

theorem sum_take_mono (lens : List Nat) {m k : Nat} (h : m ≤ k) :
    (lens.take m).sum ≤ (lens.take k).sum := by
  have : (lens.take k).take m = lens.take m := by
    rw [List.take_take, Nat.min_eq_left h]
  calc (lens.take m).sum = ((lens.take k).take m).sum := by rw [this]
    _ ≤ (lens.take k).sum := sum_take_le _ _

theorem buildEnds_getD_of_no_overflow (lens : List Nat) (hov : lens.sum < W)
    (i : Nat) (h : i < lens.length) :
    (buildEnds lens).getD i 0 = (lens.take (i + 1)).sum := by
  rw [buildEnds_getD lens i h]
  exact Nat.mod_eq_of_lt (lt_of_le_of_lt (sum_take_le lens (i + 1)) hov)

theorem sum_take_succ (lens : List Nat) (i : Nat) (h : i < lens.length) :
    (lens.take (i + 1)).sum = (lens.take i).sum + lens.getD i 0 := by
  rw [List.take_succ, List.sum_append]
  congr 1
  rw [List.getD_eq_getElem?_getD, List.getElem?_eq_getElem h]
  simp

theorem contains_v_iff (t : Nat) (tags : List Nat) :
    contains_v t tags = true ↔ t ∈ tags := by
  induction tags with
  | nil => simp [contains_v]
  | cons u rest ih =>
    simp [contains_v, ih, List.mem_cons]

theorem unique_types_v_iff (tags : List Nat) :
    unique_types_v tags = true ↔ tags.Nodup := by
  induction tags with
  | nil => simp [unique_types_v]
  | cons t rest ih =>
    simp only [unique_types_v, Bool.and_eq_true_iff, List.all_eq_true, List.nodup_cons, ih,
      Bool.not_eq_true', beq_eq_false_iff_ne, ne_eq]
    constructor
    · rintro ⟨h1, h2⟩
      exact ⟨fun hm => h1 t hm rfl, h2⟩
    · rintro ⟨h1, h2⟩
      exact ⟨fun u hu ht => h1 (ht ▸ hu), h2⟩

theorem index_of_get (tags : List Nat) (hnd : tags.Nodup) :
    ∀ (i : Nat) (h : i < tags.length), index_of (tags.get ⟨i, h⟩) tags = some i := by
  induction tags with
  | nil =>
    intro i h
    simp at h
  | cons u rest ih =>
    intro i h
    cases i with
    | zero => simp [index_of]
    | succ i =>
      have h' : i < rest.length := by
        simpa using Nat.lt_of_succ_lt_succ h
      have hmem : rest.get ⟨i, h'⟩ ∈ rest := List.get_mem rest i h'
      have hne : rest.get ⟨i, h'⟩ ≠ u := by
        intro heq
        exact (List.nodup_cons.mp hnd).1 (heq ▸ hmem)
      have hget : (u :: rest).get ⟨i + 1, h⟩ = rest.get ⟨i, h'⟩ := rfl
      rw [hget, index_of, if_neg hne, ih (List.nodup_cons.mp hnd).2 i h']
      rfl

theorem index_of_isSome_of_mem (t : Nat) (tags : List Nat) (h : t ∈ tags) :
    ∃ i, index_of t tags = some i ∧ i < tags.length := by
  induction tags with
  | nil => simp at h
  | cons u rest ih =>
    by_cases he : t = u
    · exact ⟨0, by simp [index_of, he], by simp⟩
    · rcases List.mem_cons.mp h with h1 | h2
      · exact absurd h1 he
      · rcases ih h2 with ⟨i, hi, hlt⟩
        refine ⟨i + 1, ?_, by simpa using Nat.succ_lt_succ hlt⟩
        rw [index_of, if_neg he, hi]
        rfl

theorem mkBuffer_some_elim {α : Type} [Inhabited α] {tags : List Nat}
    {specs : List SegmentSize} {b : Buffer α}
    (h : mkBuffer α tags specs = some b) :
    tags.Nodup ∧ specs.map SegmentSize.tag = tags ∧
    b.tags = tags ∧ b.ends = buildEnds (specs.map SegmentSize.n) ∧
    b.data = some (fun _ => (default : α)) ∧
    b.allocSize = (if tags.length = 0 then 0
      else (buildEnds (specs.map SegmentSize.n)).getD (tags.length - 1) 0) := by
  unfold mkBuffer at h
  by_cases hc : (unique_types_v tags && (specs.map SegmentSize.tag == tags)) = true
  · rw [if_pos hc] at h
    obtain ⟨h1, h2⟩ := Bool.and_eq_true_iff.mp hc
    injection h with h
    subst h
    exact ⟨(unique_types_v_iff tags).mp h1, beq_iff_eq.mp h2, rfl, rfl, rfl, rfl⟩
  · rw [if_neg hc] at h
    cases h

theorem mkBuffer_eq_none {α : Type} [Inhabited α] {tags : List Nat}
    {specs : List SegmentSize}
    (h : ¬ tags.Nodup ∨ specs.map SegmentSize.tag ≠ tags) :
    mkBuffer α tags specs = none := by
  cases hb : mkBuffer α tags specs with
  | none => rfl
  | some b =>
    obtain ⟨h1, h2, -⟩ := mkBuffer_some_elim hb
    rcases h with h | h
    · exact absurd h1 h
    · exact absurd h2 h

theorem get_position {α : Type} (b : Buffer α) (hnd : b.tags.Nodup)
    (i : Nat) (h : i < b.tags.length) :
    b.get (b.tags.get ⟨i, h⟩) =
      some ⟨(if i = 0 then 0 else b.ends.getD (i - 1) 0),
        ((b.ends.getD i 0) + W - (if i = 0 then 0 else b.ends.getD (i - 1) 0)) % W⟩ := by
  have hmem : b.tags.get ⟨i, h⟩ ∈ b.tags := List.get_mem b.tags i h
  unfold Buffer.get
  rw [if_pos ((contains_v_iff _ _).mpr hmem), index_of_get b.tags hnd i h]

/-- On a buffer whose construction did not overflow `size_t`, the view for the
tag at position `i` starts at the sum of the preceding lengths and has exactly
the requested length. -/
theorem get_no_overflow {α : Type} [Inhabited α] {tags : List Nat}
    {specs : List SegmentSize} {b : Buffer α}
    (hb : mkBuffer α tags specs = some b)
    (hov : (specs.map SegmentSize.n).sum < W)
    (i : Nat) (h : i < tags.length) :
    b.get (tags.get ⟨i, h⟩) =
      some ⟨((specs.map SegmentSize.n).take i).sum,
        (specs.map SegmentSize.n).getD i 0⟩ := by
  obtain ⟨hnd, htag, hbt, hbe, -, -⟩ := mkBuffer_some_elim hb
  subst hbt
  set lens := specs.map SegmentSize.n with hlens
  have hlen : lens.length = b.tags.length := by
    rw [hlens, List.length_map, ← htag, List.length_map]
  have hil : i < lens.length := by rw [hlen]; exact h
  rw [get_position b hnd i h]
  have hlt : (lens.take (i + 1)).sum < W :=
    lt_of_le_of_lt (sum_take_le lens (i + 1)) hov
  have he : b.ends.getD i 0 = (lens.take (i + 1)).sum := by
    rw [hbe]
    exact buildEnds_getD_of_no_overflow lens hov i hil
  have hs : (if i = 0 then 0 else b.ends.getD (i - 1) 0) = (lens.take i).sum := by
    by_cases h0 : i = 0
    · simp [h0]
    · rw [if_neg h0, hbe]
      have hi1 : i - 1 < lens.length := lt_of_le_of_lt (Nat.sub_le i 1) hil
      rw [buildEnds_getD_of_no_overflow lens hov (i - 1) hi1]
      congr 2
      omega
  have hsucc : (lens.take (i + 1)).sum = (lens.take i).sum + lens.getD i 0 :=
    sum_take_succ lens i hil
  have hD : (lens.take i).sum + lens.getD i 0 < W := by
    rw [← hsucc]; exact hlt
  rw [he, hs, hsucc]
  have h1 : (lens.take i).sum + lens.getD i 0 + W - (lens.take i).sum
      = lens.getD i 0 + W := by omega
  rw [h1, Nat.add_mod_right, Nat.mod_eq_of_lt (by omega : lens.getD i 0 < W)]

/-- For any successfully constructed buffer (overflow or not), the view's start
and the `size_t` sum start + length recover the boundary-table entries. -/
theorem get_position_mod {α : Type} [Inhabited α] {tags : List Nat}
    {specs : List SegmentSize} {b : Buffer α}
    (hb : mkBuffer α tags specs = some b)
    (i : Nat) (h : i < tags.length) :
    ∃ v : View, b.get (tags.get ⟨i, h⟩) = some v ∧
      v.start = (if i = 0 then 0 else b.ends.getD (i - 1) 0) ∧
      (v.start + v.len) % W = b.ends.getD i 0 := by
  obtain ⟨hnd, htag, hbt, hbe, -, -⟩ := mkBuffer_some_elim hb
  subst hbt
  have hlen : (specs.map SegmentSize.n).length = b.tags.length := by
    rw [List.length_map, ← htag, List.length_map]
  have hpos := get_position b hnd i h
  refine ⟨_, hpos, rfl, ?_⟩
  have hil : i < (specs.map SegmentSize.n).length := by rw [hlen]; exact h
  have hiW : b.ends.getD i 0 < W := by
    rw [hbe]
    exact buildEnds_getD_lt_W _ i hil
  have hsW : (if i = 0 then 0 else b.ends.getD (i - 1) 0) < W := by
    by_cases h0 : i = 0
    · simpa [h0] using W_pos
    · rw [if_neg h0, hbe]
      exact buildEnds_getD_lt_W _ (i - 1) (by omega)
  set e := b.ends.getD i 0
  set s := (if i = 0 then 0 else b.ends.getD (i - 1) 0)
  show (s + (e + W - s) % W) % W = e
  rw [Nat.add_mod_mod]
  have : s + (e + W - s) = e + W := by omega
  rw [this, Nat.add_mod_right]
  exact Nat.mod_eq_of_lt hiW

theorem total_size_eq_sum_mod {α : Type} [Inhabited α] {tags : List Nat}
    {specs : List SegmentSize} {b : Buffer α}
    (hb : mkBuffer α tags specs = some b) :
    b.total_size = (specs.map SegmentSize.n).sum % W := by
  obtain ⟨-, htag, hbt, hbe, -, -⟩ := mkBuffer_some_elim hb
  have hlt : tags.length = specs.length := by rw [← htag, List.length_map]
  unfold Buffer.total_size
  rw [hbt, hlt]
  by_cases h0 : specs.length = 0
  · rw [if_pos h0]
    have hnil : specs = [] := List.length_eq_zero.mp h0
    subst hnil
    simp
  · rw [if_neg h0, hbe]
    have hlen2 : specs.length - 1 < (specs.map SegmentSize.n).length := by
      rw [List.length_map]; omega
    rw [buildEnds_getD _ _ hlen2]
    have he : specs.length - 1 + 1 = (specs.map SegmentSize.n).length := by
      rw [List.length_map]; omega
    rw [he, List.take_length]

theorem ends_getD_eq {α : Type} [Inhabited α] {tags : List Nat}
    {specs : List SegmentSize} {b : Buffer α}
    (hb : mkBuffer α tags specs = some b) (i : Nat) (hi : i < specs.length) :
    b.ends.getD i 0 = ((specs.map SegmentSize.n).take (i + 1)).sum % W := by
  obtain ⟨-, -, -, hbe, -, -⟩ := mkBuffer_some_elim hb
  rw [hbe]
  exact buildEnds_getD _ i (by rw [List.length_map]; exact hi)

/-! ### Claims -/

/-- C1 (amended): for every buffer constructed from specifications with
non-negative lengths `L_1..L_N` (N may be 0), the boundary table built at
construction is the sequence of prefix sums of the requested lengths in
declaration order, each taken modulo 2^64 (`size_t` arithmetic), and
`total_size()` returns the last boundary (0 when N = 0), so `total_size()`
equals the sum of all `L_i` modulo 2^64 — equal to the mathematical sum
whenever that sum is below 2^64. -/
theorem C1_boundaries_and_total_size (α : Type) [Inhabited α]
    (tags : List Nat) (specs : List SegmentSize) (b : Buffer α)
    (hb : mkBuffer α tags specs = some b) :
    (∀ i, i < specs.length →
      b.ends.getD i 0 = ((specs.map SegmentSize.n).take (i + 1)).sum % W) ∧
    b.total_size = (specs.map SegmentSize.n).sum % W ∧
    ((specs.map SegmentSize.n).sum < W →
      b.total_size = (specs.map SegmentSize.n).sum) := by
  have h2 := total_size_eq_sum_mod hb
  exact ⟨fun i hi => ends_getD_eq hb i hi, h2,
    fun hov => by rw [h2]; exact Nat.mod_eq_of_lt hov⟩

/-- Witness for C1: lengths 10 and 20 give `total_size() = 30`. -/
theorem C1_boundaries_and_total_size_witness :
    Buffer.total_size ((mkBuffer Int [0, 1] [Segment 0 10, Segment 1 20]).getD emptyBuffer) = 30 := by
  have hb : mkBuffer Int [0, 1] [Segment 0 10, Segment 1 20] =
      some ((mkBuffer Int [0, 1] [Segment 0 10, Segment 1 20]).getD emptyBuffer) := rfl
  have h := (C1_boundaries_and_total_size Int [0, 1] [Segment 0 10, Segment 1 20] _ hb).2.2
    (by decide)
  rw [h]
  decide

/-- Counterexample to C1 as stated: the lengths 2^63 and 2^63 are each
representable in `size_t`, construction succeeds, but `total_size()` returns
0, not the sum 2^64: the running total wraps. -/
theorem C1_counterexample_overflow :
    mkBuffer Int [0, 1] [Segment 0 (2 ^ 63), Segment 1 (2 ^ 63)] = some wrapBuffer ∧
    wrapBuffer.total_size = 0 ∧ (0 : Nat) ≠ 2 ^ 63 + 2 ^ 63 := by
  refine ⟨rfl, rfl, by decide⟩

/-- C10: boundary and total-size arithmetic is unsigned machine arithmetic
modulo 2^64: every recorded boundary is a prefix sum modulo 2^64 and
`total_size()` is the total sum modulo 2^64; construction performs no overflow
check (a wrapping configuration still constructs successfully), and the
resulting boundary table need not be non-decreasing (with lengths 2^63, 2^63
the second boundary 0 is below the first boundary 2^63). -/
theorem C10_sizet_modular_arithmetic (α : Type) [Inhabited α]
    (tags : List Nat) (specs : List SegmentSize) (b : Buffer α)
    (hb : mkBuffer α tags specs = some b) :
    b.total_size = (specs.map SegmentSize.n).sum % W ∧
    (∀ i, i < specs.length →
      b.ends.getD i 0 = ((specs.map SegmentSize.n).take (i + 1)).sum % W) ∧
    (∃ b2 : Buffer α,
      mkBuffer α [0, 1] [Segment 0 (2 ^ 63), Segment 1 (2 ^ 63)] = some b2 ∧
      b2.ends.getD 1 0 < b2.ends.getD 0 0) := by
  refine ⟨total_size_eq_sum_mod hb, fun i hi => ends_getD_eq hb i hi, ?_⟩
  refine ⟨{ tags := [0, 1], ends := buildEnds [2 ^ 63, 2 ^ 63],
            data := some (fun _ => (default : α)),
            allocSize := (buildEnds [2 ^ 63, 2 ^ 63]).getD 1 0 }, ?_, ?_⟩
  · rfl
  · show (buildEnds [2 ^ 63, 2 ^ 63]).getD 1 0 < (buildEnds [2 ^ 63, 2 ^ 63]).getD 0 0
    decide

/-- Witness for C10: the wrapping construction has `total_size() = 0 = (2^63 + 2^63) % 2^64`. -/
theorem C10_sizet_modular_arithmetic_witness :
    wrapBuffer.total_size =
      ([Segment 0 (2 ^ 63), Segment 1 (2 ^ 63)].map SegmentSize.n).sum % W := by
  have hb : mkBuffer Int [0, 1] [Segment 0 (2 ^ 63), Segment 1 (2 ^ 63)] = some wrapBuffer := rfl
  exact (C10_sizet_modular_arithmetic Int [0, 1]
    [Segment 0 (2 ^ 63), Segment 1 (2 ^ 63)] wrapBuffer hb).1

/-- C2 (amended): for every buffer constructed with lengths `L_1..L_N` whose
sum is below 2^64 (no `size_t` overflow), the view returned by `get` for the
i-th declared name has length `L_i`, and the N ranges are pairwise disjoint
and jointly cover `[0, total_size())` with no gaps, in declared order: the
first range starts at 0, each range's end equals the next range's start, and
the last range's end equals `total_size()`. -/
theorem C2_segments_partition (α : Type) [Inhabited α]
    (tags : List Nat) (specs : List SegmentSize) (b : Buffer α)
    (hb : mkBuffer α tags specs = some b)
    (hov : (specs.map SegmentSize.n).sum < W) :
    (∀ (i : Nat) (h : i < tags.length),
      ((b.get (tags.get ⟨i, h⟩)).getD ⟨0, 0⟩).len = (specs.map SegmentSize.n).getD i 0) ∧
    (∀ h0 : 0 < tags.length,
      ((b.get (tags.get ⟨0, h0⟩)).getD ⟨0, 0⟩).start = 0) ∧
    (∀ (i : Nat) (h : i + 1 < tags.length),
      ((b.get (tags.get ⟨i, Nat.lt_of_succ_lt h⟩)).getD ⟨0, 0⟩).start +
        ((b.get (tags.get ⟨i, Nat.lt_of_succ_lt h⟩)).getD ⟨0, 0⟩).len =
      ((b.get (tags.get ⟨i + 1, h⟩)).getD ⟨0, 0⟩).start) ∧
    (∀ h0 : 0 < tags.length,
      ((b.get (tags.get ⟨tags.length - 1, Nat.sub_lt h0 Nat.one_pos⟩)).getD ⟨0, 0⟩).start +
        ((b.get (tags.get ⟨tags.length - 1, Nat.sub_lt h0 Nat.one_pos⟩)).getD ⟨0, 0⟩).len =
      b.total_size) ∧
    (∀ (i j : Nat) (hi : i < tags.length) (hj : j < tags.length), i ≠ j →
      ((b.get (tags.get ⟨i, hi⟩)).getD ⟨0, 0⟩).start +
          ((b.get (tags.get ⟨i, hi⟩)).getD ⟨0, 0⟩).len ≤
        ((b.get (tags.get ⟨j, hj⟩)).getD ⟨0, 0⟩).start ∨
      ((b.get (tags.get ⟨j, hj⟩)).getD ⟨0, 0⟩).start +
          ((b.get (tags.get ⟨j, hj⟩)).getD ⟨0, 0⟩).len ≤
        ((b.get (tags.get ⟨i, hi⟩)).getD ⟨0, 0⟩).start) := by
  have hto := total_size_eq_sum_mod hb
  obtain ⟨-, htag, -, -, -, -⟩ := mkBuffer_some_elim hb
  have hlen : (specs.map SegmentSize.n).length = tags.length := by
    rw [List.length_map, ← htag, List.length_map]
  set lens := specs.map SegmentSize.n with hlens
  have hchain : ∀ (i : Nat) (h : i < tags.length),
      ((b.get (tags.get ⟨i, h⟩)).getD ⟨0, 0⟩) = ⟨(lens.take i).sum, lens.getD i 0⟩ := by
    intro i h
    rw [get_no_overflow hb hov i h]
    rfl
  refine ⟨?_, ?_, ?_, ?_, ?_⟩
  · intro i h
    rw [hchain i h]
  · intro h0
    rw [hchain 0 h0]
    simp
  · intro i h
    rw [hchain i (Nat.lt_of_succ_lt h), hchain (i + 1) h]
    exact (sum_take_succ lens i (by rw [hlen]; exact Nat.lt_of_succ_lt h)).symm
  · intro h0
    rw [hchain (tags.length - 1) (Nat.sub_lt h0 Nat.one_pos)]
    show (lens.take (tags.length - 1)).sum + lens.getD (tags.length - 1) 0 = b.total_size
    rw [hto, Nat.mod_eq_of_lt hov,
      ← sum_take_succ lens (tags.length - 1) (by rw [hlen]; omega)]
    have he : tags.length - 1 + 1 = lens.length := by rw [hlen]; omega
    rw [he, List.take_length]
  · intro i j hi hj hne
    rw [hchain i hi, hchain j hj]
    rcases Nat.lt_or_ge i j with hij | hij
    · left
      show (lens.take i).sum + lens.getD i 0 ≤ (lens.take j).sum
      rw [← sum_take_succ lens i (by rw [hlen]; omega)]
      exact sum_take_mono lens hij
    · right
      have hji : j < i := by omega
      show (lens.take j).sum + lens.getD j 0 ≤ (lens.take i).sum
      rw [← sum_take_succ lens j (by rw [hlen]; omega)]
      exact sum_take_mono lens hji

/-- Witness for C2: with lengths 10 and 20, segment 0's view has length 10. -/
theorem C2_segments_partition_witness :
    ((((mkBuffer Int [0, 1] [Segment 0 10, Segment 1 20]).getD emptyBuffer).get
        ([0, 1].get ⟨0, Nat.two_pos⟩)).getD ⟨0, 0⟩).len =
      ([Segment 0 10, Segment 1 20].map SegmentSize.n).getD 0 0 :=
  (C2_segments_partition Int [0, 1] [Segment 0 10, Segment 1 20]
    ((mkBuffer Int [0, 1] [Segment 0 10, Segment 1 20]).getD emptyBuffer) rfl
    (by decide)).1 0 Nat.two_pos

/-- Counterexample to C2 as stated: with lengths 2^64 - 1 and 2 (each
representable in `size_t`) construction succeeds and the second segment's
range ends at (2^64 - 1) + 2, but `total_size()` is 1: the ranges do not
cover `[0, total_size())`, the last range's end is not `total_size()`. -/
theorem C2_counterexample_overflow :
    mkBuffer Int [0, 1] [Segment 0 (2 ^ 64 - 1), Segment 1 2] = some coverBuffer ∧
    coverBuffer.get 1 = some ⟨2 ^ 64 - 1, 2⟩ ∧
    coverBuffer.total_size = 1 ∧
    (2 ^ 64 - 1) + 2 ≠ coverBuffer.total_size :=
  ⟨rfl, rfl, rfl, by decide⟩

/-- C3: for every constructed buffer and declared name at position `i`, the
name resolves (without searching) to the boundary-table position `i`, and
`get` returns the view whose start is 0 when `i = 0` and `boundary[i-1]`
otherwise, and whose end — start + length in `size_t` arithmetic — is
`boundary[i]`. -/
theorem C3_get_bounds_from_boundary_table (α : Type) [Inhabited α]
    (tags : List Nat) (specs : List SegmentSize) (b : Buffer α)
    (hb : mkBuffer α tags specs = some b) (i : Nat) (h : i < tags.length) :
    index_of (tags.get ⟨i, h⟩) tags = some i ∧
    ∃ v : View, b.get (tags.get ⟨i, h⟩) = some v ∧
      v.start = (if i = 0 then 0 else b.ends.getD (i - 1) 0) ∧
      (v.start + v.len) % W = b.ends.getD i 0 := by
  obtain ⟨hnd, -, -, -, -, -⟩ := mkBuffer_some_elim hb
  exact ⟨index_of_get tags hnd i h, get_position_mod hb i h⟩

/-- Witness for C3: lengths 10 and 20, second declared name. -/
theorem C3_get_bounds_from_boundary_table_witness :
    index_of ([0, 1].get ⟨1, Nat.one_lt_two⟩) [0, 1] = some 1 ∧
    ∃ v : View,
      ((mkBuffer Int [0, 1] [Segment 0 10, Segment 1 20]).getD emptyBuffer).get
          ([0, 1].get ⟨1, Nat.one_lt_two⟩) = some v ∧
      v.start = (if 1 = 0 then 0
        else ((mkBuffer Int [0, 1] [Segment 0 10, Segment 1 20]).getD emptyBuffer).ends.getD
          (1 - 1) 0) ∧
      (v.start + v.len) % W =
        ((mkBuffer Int [0, 1] [Segment 0 10, Segment 1 20]).getD emptyBuffer).ends.getD 1 0 :=
  C3_get_bounds_from_boundary_table Int [0, 1] [Segment 0 10, Segment 1 20]
    ((mkBuffer Int [0, 1] [Segment 0 10, Segment 1 20]).getD emptyBuffer) rfl 1 Nat.one_lt_two

/-- C4 (amended): for every buffer constructed with total requested length
below 2^64 (no `size_t` overflow), writing a value at position k through one
segment's view and then reading position k back through the same view returns
that value, and a write performed through one segment's view never changes
the observable contents of any other segment. -/
theorem C4_roundtrip_and_frame (α : Type) [Inhabited α]
    (tags : List Nat) (specs : List SegmentSize) (b : Buffer α)
    (hb : mkBuffer α tags specs = some b)
    (hov : (specs.map SegmentSize.n).sum < W)
    (i j : Nat) (hi : i < tags.length) (hj : j < tags.length)
    (vi vj : View)
    (hvi : b.get (tags.get ⟨i, hi⟩) = some vi)
    (hvj : b.get (tags.get ⟨j, hj⟩) = some vj)
    (k m : Nat) (hk : k < vi.len) (hm : m < vj.len) (x : α) :
    (b.writeAt vi k x).readAt vi k = some x ∧
    (i ≠ j → (b.writeAt vi k x).readAt vj m = b.readAt vj m) := by
  obtain ⟨-, htag, -, -, hdata, -⟩ := mkBuffer_some_elim hb
  set lens := specs.map SegmentSize.n with hlens
  have hlen : lens.length = tags.length := by
    rw [hlens, List.length_map, ← htag, List.length_map]
  have hvi2 : vi = ⟨(lens.take i).sum, lens.getD i 0⟩ :=
    Option.some.inj (hvi.symm.trans (get_no_overflow hb hov i hi))
  have hvj2 : vj = ⟨(lens.take j).sum, lens.getD j 0⟩ :=
    Option.some.inj (hvj.symm.trans (get_no_overflow hb hov j hj))
  constructor
  · unfold Buffer.writeAt Buffer.readAt
    rw [hdata]
    simp
  · intro hij
    have hsi : vi.start = (lens.take i).sum := by rw [hvi2]
    have hsj : vj.start = (lens.take j).sum := by rw [hvj2]
    have hk2 : k < lens.getD i 0 := by rw [hvi2] at hk; exact hk
    have hm2 : m < lens.getD j 0 := by rw [hvj2] at hm; exact hm
    have hne : vj.start + m ≠ vi.start + k := by
      rw [hsi, hsj]
      rcases Nat.lt_or_ge i j with hlt | hge
      · have hle : (lens.take i).sum + lens.getD i 0 ≤ (lens.take j).sum := by
          rw [← sum_take_succ lens i (by rw [hlen]; omega)]
          exact sum_take_mono lens hlt
        omega
      · have hlt2 : j < i := by omega
        have hle : (lens.take j).sum + lens.getD j 0 ≤ (lens.take i).sum := by
          rw [← sum_take_succ lens j (by rw [hlen]; omega)]
          exact sum_take_mono lens hlt2
        omega
    unfold Buffer.writeAt Buffer.readAt
    rw [hdata]
    simp only [Option.map_some']
    rw [if_neg hne]

/-- Witness for C4: lengths 10 and 20, write 7 at position 0 of segment 0. -/
theorem C4_roundtrip_and_frame_witness :
    ((((mkBuffer Int [0, 1] [Segment 0 10, Segment 1 20]).getD emptyBuffer).writeAt
        ⟨0, 10⟩ 0 7).readAt ⟨0, 10⟩ 0 = some 7) ∧
    ((0 : Nat) ≠ 1 →
      ((((mkBuffer Int [0, 1] [Segment 0 10, Segment 1 20]).getD emptyBuffer).writeAt
          ⟨0, 10⟩ 0 7).readAt ⟨10, 20⟩ 0 =
        ((mkBuffer Int [0, 1] [Segment 0 10, Segment 1 20]).getD emptyBuffer).readAt
          ⟨10, 20⟩ 0)) :=
  C4_roundtrip_and_frame Int [0, 1] [Segment 0 10, Segment 1 20]
    ((mkBuffer Int [0, 1] [Segment 0 10, Segment 1 20]).getD emptyBuffer) rfl (by decide)
    0 1 Nat.two_pos Nat.one_lt_two ⟨0, 10⟩ ⟨10, 20⟩ rfl rfl
    0 0 (by decide) (by decide) 7

/-- Counterexample to C4 as stated: with lengths 2^63, 2^63, 5 the running
total wraps, so segment 2's view starts at offset 0 — the same offset as
segment 0's view.  Writing 42 through segment 0's view at
position 0 (in bounds for both the view and the 5-element allocation)
changes the value segment 2's view reads at its position 0 from 0 to 42. -/
theorem C4_counterexample_aliasing :
    mkBuffer Int [0, 1, 2] [Segment 0 (2 ^ 63), Segment 1 (2 ^ 63), Segment 2 5]
      = some aliasBuffer ∧
    aliasBuffer.get 0 = some aliasV0 ∧
    aliasBuffer.get 2 = some aliasV2 ∧
    0 < aliasV0.len ∧ 0 < aliasV2.len ∧
    aliasBuffer.readAt aliasV2 0 = some 0 ∧
    (aliasBuffer.writeAt aliasV0 0 42).readAt aliasV2 0 = some 42 ∧
    (42 : Int) ≠ 0 :=
  ⟨rfl, rfl, rfl, by decide, by decide, rfl, rfl, by decide⟩

/-- C5: a segment whose requested length is 0 yields an empty view from
`get`, and a buffer declared with zero segments has `total_size() = 0` and
requests an allocation of exactly 0 elements at construction (not a sentinel
or size-1 empty block). -/
theorem C5_zero_length_and_zero_segments (α : Type) [Inhabited α] :
    (∀ (tags : List Nat) (specs : List SegmentSize) (b : Buffer α),
        mkBuffer α tags specs = some b →
        ∀ (i : Nat) (h : i < tags.length),
        (specs.map SegmentSize.n).getD i 0 = 0 →
        ∃ v : View, b.get (tags.get ⟨i, h⟩) = some v ∧ v.len = 0) ∧
    (∀ (specs : List SegmentSize) (b : Buffer α),
        mkBuffer α [] specs = some b →
        b.total_size = 0 ∧ b.allocSize = 0) := by
  constructor
  · intro tags specs b hb i h hL
    obtain ⟨hnd, htag, hbt, hbe, -, -⟩ := mkBuffer_some_elim hb
    subst hbt
    set lens := specs.map SegmentSize.n with hlens
    have hlen : lens.length = b.tags.length := by
      rw [hlens, List.length_map, ← htag, List.length_map]
    have hil : i < lens.length := by rw [hlen]; exact h
    refine ⟨_, get_position b hnd i h, ?_⟩
    show ((b.ends.getD i 0) + W - (if i = 0 then 0 else b.ends.getD (i - 1) 0)) % W = 0
    have he : b.ends.getD i 0 = (lens.take (i + 1)).sum % W := by
      rw [hbe]; exact buildEnds_getD lens i hil
    have hsucc : (lens.take (i + 1)).sum = (lens.take i).sum := by
      rw [sum_take_succ lens i hil, hL, Nat.add_zero]
    by_cases h0 : i = 0
    · subst h0
      rw [he, hsucc]
      simp
    · rw [he, if_neg h0]
      have hs : b.ends.getD (i - 1) 0 = (lens.take i).sum % W := by
        rw [hbe]
        have hidx : i - 1 + 1 = i := by omega
        have hgd := buildEnds_getD lens (i - 1) (by omega)
        rw [hidx] at hgd
        exact hgd
      rw [hs, hsucc]
      have hsW : (lens.take i).sum % W < W := Nat.mod_lt _ W_pos
      have harith : (lens.take i).sum % W + W - (lens.take i).sum % W = W := by omega
      rw [harith, Nat.mod_self]
  · intro specs b hb
    obtain ⟨-, htag, hbt, -, -, hba⟩ := mkBuffer_some_elim hb
    constructor
    · unfold Buffer.total_size
      rw [hbt]
      simp
    · rw [hba]
      simp

/-- Witness for C5: a zero-length first segment yields an empty view, and the
zero-segment buffer has `total_size() = 0` and allocation request 0. -/
theorem C5_zero_length_and_zero_segments_witness :
    (∃ v : View, ((mkBuffer Int [0, 1] [Segment 0 0, Segment 1 5]).getD emptyBuffer).get
        ([0, 1].get ⟨0, Nat.two_pos⟩) = some v ∧ v.len = 0) ∧
    (((mkBuffer Int ([] : List Nat) []).getD emptyBuffer).total_size = 0 ∧
      ((mkBuffer Int ([] : List Nat) []).getD emptyBuffer).allocSize = 0) :=
  ⟨(C5_zero_length_and_zero_segments Int).1 [0, 1] [Segment 0 0, Segment 1 5] _ rfl
      0 Nat.two_pos (by decide),
    (C5_zero_length_and_zero_segments Int).2 [] _ rfl⟩

/-- C6: configuration errors — a declared name set with duplicate names, or a
specification list that is not exactly the declared names, one each, in
declared order — fail the compile-time requires-clauses, so no buffer of the
malformed configuration can ever exist (construction yields no object, hence
happens before any allocation); and the code's compile-time uniqueness check
`unique_types_v` is exactly pairwise distinctness of the declared names. -/
theorem C6_malformed_configuration_rejected (α : Type) [Inhabited α]
    (tags : List Nat) (specs : List SegmentSize)
    (h : ¬ tags.Nodup ∨ specs.map SegmentSize.tag ≠ tags) :
    mkBuffer α tags specs = none ∧
    (unique_types_v tags = true ↔ tags.Nodup) :=
  ⟨mkBuffer_eq_none h, unique_types_v_iff tags⟩

/-- Witness for C6: a duplicated declared name is rejected. -/
theorem C6_malformed_configuration_rejected_witness :
    mkBuffer Int [0, 0] [Segment 0 1, Segment 0 2] = none ∧
    (unique_types_v [0, 0] = true ↔ [0, 0].Nodup) :=
  C6_malformed_configuration_rejected Int [0, 0] [Segment 0 1, Segment 0 2]
    (Or.inl (by decide))

/-- C7: requesting a view for a name outside the buffer's declared name set
fails the compile-time containment check `contains_v` — in the model, `get`
yields no view at all (`none`), never an out-of-range or aliased view. -/
theorem C7_undeclared_name_rejected (α : Type) (b : Buffer α) (t : Nat)
    (h : t ∉ b.tags) :
    contains_v t b.tags = false ∧ b.get t = none := by
  have hc : contains_v t b.tags = false := by
    cases hcv : contains_v t b.tags with
    | false => rfl
    | true => exact absurd ((contains_v_iff t b.tags).mp hcv) h
  refine ⟨hc, ?_⟩
  unfold Buffer.get
  rw [hc]
  simp

/-- Witness for C7: name 5 is not declared in `[0, 1]`. -/
theorem C7_undeclared_name_rejected_witness :
    contains_v 5 ((mkBuffer Int [0, 1] [Segment 0 10, Segment 1 20]).getD emptyBuffer).tags
      = false ∧
    ((mkBuffer Int [0, 1] [Segment 0 10, Segment 1 20]).getD emptyBuffer).get 5 = none :=
  C7_undeclared_name_rejected Int
    ((mkBuffer Int [0, 1] [Segment 0 10, Segment 1 20]).getD emptyBuffer) 5 (by decide)

/-- C8: once a buffer is constructed (Ready state), `get` and `total_size`
are total over the validated, immutable layout: `get` returns a view for
every declared name (never an error), and `total_size` returns the fixed
last boundary (the sum of the lengths in `size_t` arithmetic). -/
theorem C8_ready_operations_total (α : Type) [Inhabited α]
    (tags : List Nat) (specs : List SegmentSize) (b : Buffer α)
    (hb : mkBuffer α tags specs = some b) (t : Nat) (ht : t ∈ tags) :
    (∃ v : View, b.get t = some v) ∧
    b.total_size = (specs.map SegmentSize.n).sum % W := by
  obtain ⟨-, -, hbt, -, -, -⟩ := mkBuffer_some_elim hb
  subst hbt
  constructor
  · unfold Buffer.get
    rw [if_pos ((contains_v_iff t b.tags).mpr ht)]
    obtain ⟨i, hi, -⟩ := index_of_isSome_of_mem t b.tags ht
    rw [hi]
    exact ⟨_, rfl⟩
  · exact total_size_eq_sum_mod hb

/-- Witness for C8: both declared names of a concrete buffer produce views. -/
theorem C8_ready_operations_total_witness :
    (∃ v : View, ((mkBuffer Int [0, 1] [Segment 0 10, Segment 1 20]).getD emptyBuffer).get 1
      = some v) ∧
    ((mkBuffer Int [0, 1] [Segment 0 10, Segment 1 20]).getD emptyBuffer).total_size =
      ([Segment 0 10, Segment 1 20].map SegmentSize.n).sum % W :=
  C8_ready_operations_total Int [0, 1] [Segment 0 10, Segment 1 20]
    ((mkBuffer Int [0, 1] [Segment 0 10, Segment 1 20]).getD emptyBuffer) rfl 1 (by decide)

/-- C9: copying a buffer is disallowed (the embedding exposes no copy
operation, mirroring the deleted copy constructor and copy assignment);
moving a buffer transfers ownership of the allocation and the boundary table
to the destination, leaves the source owning nothing (null `unique_ptr`),
and the moved-from source is inert: reading through it is not a defined
operation (yields `none`), and writing through it leaves it owning nothing,
so holding or destroying it is never dangerous. -/
theorem C9_move_only_ownership (α : Type) (b : Buffer α) :
    (b.move).1 = b ∧
    (b.move).2.tags = b.tags ∧
    (b.move).2.ends = b.ends ∧
    (b.move).2.data = none ∧
    (∀ (v : View) (k : Nat), (b.move).2.readAt v k = none) ∧
    (∀ (v : View) (k : Nat) (x : α), ((b.move).2.writeAt v k x).data = none) :=
  ⟨rfl, rfl, rfl, rfl, fun _ _ => rfl, fun _ _ _ => rfl⟩

end SegmentedBuffer
